import Mathlib

/-!
Verification of the mvp frontend's client-side table logic.

Shallow embedding of the sortable-table, sort-toggle, fetch-error and
number-formatting logic of the three page components:

* `src/mvp-frontend/src/app/page.tsx` (predictions page) and
  `src/unnamed/part_000` (a second predictions page variant): both use the
  comparator with `?? -Infinity` defaulting of the sort-key value and a
  `(b.pick_prob ?? 0) - (a.pick_prob ?? 0)` tie-break.
* `src/mvp-frontend/src/app/history/page.tsx` (history page): comparator
  without any defaulting and with `return 0` on ties.

JavaScript numbers are modelled as `ℚ` (the JSON payloads carry plain
decimal numbers).  `Array.prototype.sort` is stable (ECMAScript 2019);
for a consistent comparator `cmp` every stable sort agrees with stable
insertion sort with the predicate `cmp a b ≤ 0`, which is how `jsStableSort`
below is defined.
-/

namespace Mvp

/-- Sort direction, the `"asc" | "desc"` union type of both pages. -/
inductive Dir where
  | asc
  | desc
deriving DecidableEq, Repr

/-- The direction flip in `toggleSort`: `d === "asc" ? "desc" : "asc"`. -/
def flipDir : Dir → Dir
  | .asc => .desc
  | .desc => .asc

/--
The `GameView` record of the predictions pages.  Fields declared
`number` in the TypeScript type are `ℚ`; fields declared
`number | null` and optional (`?:`) are `Option ℚ`, `none` covering both
`null` and an absent property (JavaScript's `??` treats both alike);
`game_id: string | number` is `String ⊕ ℤ`.
-/
structure GameView where
  game_id : String ⊕ ℤ
  week : ℤ
  away_team : String
  home_team : String
  home_off_epa : Option ℚ
  away_def_epa_allowed : Option ℚ
  home_off_vs_away_def : Option ℚ
  away_off_epa : Option ℚ
  home_def_epa_allowed : Option ℚ
  away_off_vs_home_def : Option ℚ
  net_epa_per_play : Option ℚ
  K_pair : Option ℚ
  pred_margin : ℚ
  home_win_prob : ℚ
  pick : String
  pick_prob : ℚ
deriving DecidableEq, Repr

/--
The sort keys reachable on the predictions pages: `sortKey` is initialised
to `"pick_prob"` and `toggleSort` is invoked only from the five sortable
column headers (`pred_margin`, `home_win_prob`, `pick_prob`,
`net_epa_per_play`, `K_pair`).
-/
inductive GKey where
  | pred_margin
  | home_win_prob
  | pick_prob
  | net_epa_per_play
  | K_pair
deriving DecidableEq, Repr

/-- The lookup `a[sortKey]` on a `GameView`: the value at the sort key, `none` when the
field is `null`/absent.  Required numeric fields are always present. -/
def keyVal (g : GameView) : GKey → Option ℚ
  | .pred_margin => some g.pred_margin
  | .home_win_prob => some g.home_win_prob
  | .pick_prob => some g.pick_prob
  | .net_epa_per_play => g.net_epa_per_play
  | .K_pair => g.K_pair

/-- JavaScript `<` on `(a[sortKey] ?? -Infinity)` and `(b[sortKey] ?? -Infinity)`:
a missing value is `-Infinity`, which is strictly below every number and
not below itself. -/
def evLt : Option ℚ → Option ℚ → Bool
  | none, none => false
  | none, some _ => true
  | some _, none => false
  | some a, some b => decide (a < b)

/-- The primary comparison oriented by the sort direction: the comparator
sends `a` before `b` on the primary key exactly when `evLt av bv` under
ascending sort and `evLt bv av` under descending sort. -/
def ltd (d : Dir) (u v : Option ℚ) : Bool :=
  match d with
  | .asc => evLt u v
  | .desc => evLt v u

/--
The comparator of `sorted` on the predictions pages
(`page.tsx` lines 61-67, `part_000` lines 62-71):

```
const av = a[sortKey] ?? -Infinity;
const bv = b[sortKey] ?? -Infinity;
if (av < bv) return sortDir === "asc" ? -1 : 1;
if (av > bv) return sortDir === "asc" ? 1 : -1;
return (b.pick_prob ?? 0) - (a.pick_prob ?? 0); // tie-breaker
```

`pick_prob` is a required `number` in the `GameView` type, so the `?? 0`
defaults can never fire and the tie-break is `b.pick_prob - a.pick_prob`.
-/
def cmpGame (k : GKey) (d : Dir) (a b : GameView) : ℚ :=
  let av := keyVal a k
  let bv := keyVal b k
  if evLt av bv then (if d = .asc then -1 else 1)
  else if evLt bv av then (if d = .asc then 1 else -1)
  else b.pick_prob - a.pick_prob

/--
The `HistoryRow` record of the history page.  All fields are required in
the TypeScript type; `created_at` is an ISO timestamp string.
-/
structure HistoryRow where
  id : ℤ
  season : ℤ
  week : ℤ
  game_id : String
  created_at : String
  home_team : String
  away_team : String
  pred_margin : ℚ
  home_win_prob : ℚ
  pick : String
  pick_prob : ℚ
deriving DecidableEq, Repr

/--
The sort keys reachable on the history page: `sortKey` is initialised to
`"created_at"` and `toggleSort` is invoked only from the seven sortable
column headers.
-/
inductive HKey where
  | created_at
  | season
  | week
  | game_id
  | pred_margin
  | home_win_prob
  | pick_prob
deriving DecidableEq, Repr

/-- The lookup `a[sortKey]` on a `HistoryRow`: a string for the string-typed columns,
a number for the numeric ones.  For any fixed key the variant is the same
across all rows. -/
def hKeyVal (r : HistoryRow) : HKey → String ⊕ ℚ
  | .created_at => .inl r.created_at
  | .season => .inr (r.season : ℚ)
  | .week => .inr (r.week : ℚ)
  | .game_id => .inl r.game_id
  | .pred_margin => .inr r.pred_margin
  | .home_win_prob => .inr r.home_win_prob
  | .pick_prob => .inr r.pick_prob

/-- JavaScript `<` on the history page's key values: lexicographic on
strings, numeric on numbers.  A mixed comparison cannot arise for a fixed
key (each key always yields the same variant), and is set to `false`. -/
def hvLt : String ⊕ ℚ → String ⊕ ℚ → Bool
  | .inl s, .inl t => decide (s < t)
  | .inr a, .inr b => decide (a < b)
  | _, _ => false

/--
The comparator of `sorted` on the history page
(`history/page.tsx` lines 67-73):

```
const av = a[sortKey];
const bv = b[sortKey];
if (av < bv) return sortDir === "asc" ? -1 : 1;
if (av > bv) return sortDir === "asc" ? 1 : -1;
return 0;
```

Unlike the predictions pages there is no `?? -Infinity` defaulting and no
pick-probability tie-break: ties return `0`.
-/
def cmpHist (k : HKey) (d : Dir) (a b : HistoryRow) : ℚ :=
  let av := hKeyVal a k
  let bv := hKeyVal b k
  if hvLt av bv then (if d = .asc then -1 else 1)
  else if hvLt bv av then (if d = .asc then 1 else -1)
  else 0

/-- Insert `x` into `l` before the first element `y` with `le x y`.
Inserting an element that arrived earlier in the input before the first
later element it does not strictly follow is exactly what a stable sort
does, so this realises `Array.prototype.sort`'s stability guarantee. -/
def jsInsert (le : α → α → Bool) (x : α) : List α → List α
  | [] => [x]
  | y :: ys => if le x y then x :: y :: ys else y :: jsInsert le x ys

/-- Stable insertion sort: the embedding of `Array.prototype.sort(cmp)`
(stable per ECMAScript 2019) for a consistent comparator, with
`le a b := cmp a b ≤ 0`. -/
def jsStableSort (le : α → α → Bool) : List α → List α
  | [] => []
  | x :: xs => jsInsert le x (jsStableSort le xs)

/-- The boolean "not after" predicate induced by the predictions comparator. -/
def leGame (k : GKey) (d : Dir) (a b : GameView) : Bool :=
  decide (cmpGame k d a b ≤ 0)

/-- The boolean "not after" predicate induced by the history comparator. -/
def leHist (k : HKey) (d : Dir) (a b : HistoryRow) : Bool :=
  decide (cmpHist k d a b ≤ 0)

/-- The `sorted` memo of the predictions pages: sort a copy of `rows` with
the comparator `cmpGame`. -/
def sortedGame (rows : List GameView) (k : GKey) (d : Dir) : List GameView :=
  jsStableSort (leGame k d) rows

/-- The `sorted` memo of the history page: sort a copy of `rows` with the
comparator `cmpHist`. -/
def sortedHist (rows : List HistoryRow) (k : HKey) (d : Dir) : List HistoryRow :=
  jsStableSort (leHist k d) rows

/-- The state of the predictions page that the claims touch: the fetched
rows, the busy flag, the error string, the sort state and the query inputs. -/
structure GamePageState where
  rows : List GameView
  loading : Bool
  err : Option String
  sortKey : GKey
  sortDir : Dir
  season : ℤ
  week : ℤ
deriving DecidableEq, Repr

/-- The corresponding state of the history page. -/
structure HistPageState where
  rows : List HistoryRow
  loading : Bool
  err : Option String
  sortKey : HKey
  sortDir : Dir
  season : ℤ
  week : ℤ
  limit : ℤ
deriving DecidableEq, Repr

/-- The `toggleSort` handler of the predictions pages: toggling the active key flips
the direction; selecting another key sets it with direction `desc`. -/
def toggleSortG (s : GamePageState) (k : GKey) : GamePageState :=
  if s.sortKey = k then { s with sortDir := flipDir s.sortDir }
  else { s with sortKey := k, sortDir := .desc }

/-- The `toggleSort` handler of the history page: same logic over `HKey`. -/
def toggleSortH (s : HistPageState) (k : HKey) : HistPageState :=
  if s.sortKey = k then { s with sortDir := flipDir s.sortDir }
  else { s with sortKey := k, sortDir := .desc }

/-- The predicate `res.ok` of the Fetch standard: status in the inclusive range 200-299. -/
def resOk (status : ℕ) : Bool :=
  200 ≤ status && status ≤ 299

/-- How one call to `fetchData` can resolve: the request completed with an
HTTP status and (when parseable) a JSON body, or it failed at the network
level with an optional transport error message (`none` models an error
value without a `message` property). -/
inductive FetchOutcome where
  | httpResponse (status : ℕ) (body : List GameView)
  | networkError (msg : Option String)

/--
`fetchData` of the predictions page (`page.tsx` lines 39-52) as a state
transition given the outcome of the awaited fetch:

* start: `setLoading(true); setErr(null)`;
* `!res.ok`: `throw new Error("HTTP " + res.status)` — immediately caught
  by the function's own `catch`, which stores `e.message`; `rows` is not
  touched and nothing is rethrown (the function is total here);
* `res.ok`: `setRows(data)`;
* network rejection: the `catch` stores `e?.message ?? "Failed to load"`;
* finally: `setLoading(false)`.
-/
def fetchDataStep (s : GamePageState) (o : FetchOutcome) : GamePageState :=
  let s1 := { s with loading := true, err := none }
  match o with
  | .httpResponse status body =>
      if resOk status then { s1 with rows := body, loading := false }
      else { s1 with err := some ("HTTP " ++ toString status), loading := false }
  | .networkError msg =>
      { s1 with err := some (msg.getD ("Failed to load")), loading := false }

/-- Left-pad a digit string with `'0'` to width `d` (the fraction digits of
`toFixed`). -/
def padZeros (s : String) (d : ℕ) : String :=
  String.mk (List.replicate (d - s.length) '0') ++ s

/--
`Number.prototype.toFixed(d)` per ECMA-262 (Number.prototype.toFixed),
over exact rationals: split off the sign, let `n` be the integer with
`n / 10^d` closest to `|x|` (ties to the larger `n`), and print `n` with a
decimal point `d` digits from the right.  The binary floating-point
representation of the input and the `x ≥ 10^21` fallback are not modelled.
-/
def toFixed (x : ℚ) (d : ℕ) : String :=
  let sign := if x < 0 then "-" else ""
  let n : ℤ := ⌊|x| * 10 ^ d + 1 / 2⌋
  let m : ℕ := n.toNat
  let intPart : ℕ := m / 10 ^ d
  let frac : ℕ := m % 10 ^ d
  if d = 0 then sign ++ toString intPart
  else sign ++ toString intPart ++ "." ++ padZeros (toString frac) d

/-- The formatter `fmtNum` of all three pages: a missing value renders as the em-dash
placeholder, a present value as `x.toFixed(d)`; `d` defaults to 2. -/
def fmtNum (x : Option ℚ) (d : ℕ := 2) : String :=
  match x with
  | none => "—"
  | some q => toFixed q d

/-- A store of JavaScript arrays: heap cell `i` holds the contents of the
array with reference `i`.  Used to state that sorting operates on a copy. -/
def ArrayStore (α : Type) := List (List α)

/-- The spread `const copy = [...rows]`: allocate a fresh array holding the same
element sequence as the array at `r`, returning the new store and the
reference to the copy. -/
def spreadCopy (σ : List (List α)) (r : ℕ) : List (List α) × ℕ :=
  (σ ++ [σ.getD r []], σ.length)

/-- The call `arr.sort(cmp)`: replace the contents of the array at `r` by their
stable sort; every other array is untouched. -/
def sortAt (le : α → α → Bool) (σ : List (List α)) (r : ℕ) : List (List α) :=
  σ.set r (jsStableSort le (σ.getD r []))

/-- The `sorted` memo body as it acts on the array store:
`const copy = [...rows]; copy.sort(cmp); return copy;`.  Returns the final
store and the reference of the returned (copied, sorted) array. -/
def runSortCopy (le : α → α → Bool) (σ : List (List α)) (r : ℕ) :
    List (List α) × ℕ :=
  let alloc := spreadCopy σ r
  (sortAt le alloc.1 alloc.2, alloc.2)

/-- The body `runSortCopy` instantiated with the predictions-page comparator. -/
def runSortCopyGame (σ : List (List GameView)) (r : ℕ) (k : GKey) (d : Dir) :
    List (List GameView) × ℕ :=
  runSortCopy (leGame k d) σ r

/-- The body `runSortCopy` instantiated with the history-page comparator. -/
def runSortCopyHist (σ : List (List HistoryRow)) (r : ℕ) (k : HKey) (d : Dir) :
    List (List HistoryRow) × ℕ :=
  runSortCopy (leHist k d) σ r

/-- A baseline prediction row used to build the concrete scenarios below. -/
def baseGame : GameView :=
  { game_id := .inl ("g0")
    week := 8
    away_team := "AWY"
    home_team := "HOM"
    home_off_epa := none
    away_def_epa_allowed := none
    home_off_vs_away_def := none
    away_off_epa := none
    home_def_epa_allowed := none
    away_off_vs_home_def := none
    net_epa_per_play := none
    K_pair := none
    pred_margin := 0
    home_win_prob := 1/2
    pick := "HOM"
    pick_prob := 1/2 }

/-- Scenario row `{pred_margin: 3, pick_prob: 0.55}`. -/
def g355 : GameView := { baseGame with pred_margin := 3, pick_prob := 0.55 }

/-- Scenario row `{pred_margin: 3, pick_prob: 0.80}`. -/
def g380 : GameView := { baseGame with pred_margin := 3, pick_prob := 0.80 }

/-- Scenario row `{pred_margin: 7, pick_prob: 0.60}`. -/
def g760 : GameView := { baseGame with pred_margin := 7, pick_prob := 0.60 }

/-- A row with `net_epa_per_play: null`. -/
def gNullNet : GameView := { baseGame with net_epa_per_play := none, pick_prob := 0.9 }

/-- A row with a defined `net_epa_per_play`. -/
def gDefNet : GameView := { baseGame with net_epa_per_play := some (-1/10), pick_prob := 0.6 }

/-- A history row with `week = 8` and `pick_prob = 0.2`. -/
def hLow : HistoryRow :=
  { id := 1, season := 2025, week := 8, game_id := "G1", created_at := "2025-10-01T00:00:00Z"
    home_team := "HOM", away_team := "AWY", pred_margin := 3, home_win_prob := 1/2
    pick := "HOM", pick_prob := 0.2 }

/-- A history row with the same `week = 8` but a higher `pick_prob = 0.9`. -/
def hHigh : HistoryRow :=
  { id := 2, season := 2025, week := 8, game_id := "G2", created_at := "2025-10-02T00:00:00Z"
    home_team := "HOM", away_team := "AWY", pred_margin := 5, home_win_prob := 3/5
    pick := "HOM", pick_prob := 0.9 }

/-- A concrete predictions-page state with the initial sort state
(`sortKey = pick_prob`, `sortDir = desc`). -/
def s0 : GamePageState :=
  { rows := [g355, g380], loading := false, err := none
    sortKey := .pick_prob, sortDir := .desc, season := 2025, week := 8 }

/-- A concrete history-page state with the initial sort state. -/
def h0 : HistPageState :=
  { rows := [hLow, hHigh], loading := false, err := none
    sortKey := .created_at, sortDir := .desc, season := 2025, week := 8, limit := 200 }

/-! ## Generic facts about the stable insertion sort -/

theorem jsInsert_perm (le : α → α → Bool) (x : α) (l : List α) :
    List.Perm (jsInsert le x l) (x :: l) := by
  induction l with
  | nil => exact List.Perm.refl _
  | cons y ys ih =>
    rw [jsInsert]
    by_cases h : le x y = true
    · rw [if_pos h]
    · rw [if_neg h]
      exact (ih.cons y).trans (List.Perm.swap x y ys)

theorem jsStableSort_perm (le : α → α → Bool) (l : List α) :
    List.Perm (jsStableSort le l) l := by
  induction l with
  | nil => exact List.Perm.refl _
  | cons x xs ih =>
    rw [jsStableSort]
    exact (jsInsert_perm le x (jsStableSort le xs)).trans (ih.cons x)

theorem pairwise_jsInsert (le : α → α → Bool)
    (hTot : ∀ a b, le a b = true ∨ le b a = true)
    (hTrans : ∀ a b c, le a b = true → le b c = true → le a c = true)
    (x : α) (l : List α) (h : l.Pairwise (fun a b => le a b = true)) :
    (jsInsert le x l).Pairwise (fun a b => le a b = true) := by
  induction l with
  | nil => simp [jsInsert]
  | cons y ys ih =>
    rcases List.pairwise_cons.mp h with ⟨hy, hys⟩
    rw [jsInsert]
    by_cases hxy : le x y = true
    · rw [if_pos hxy]
      refine List.Pairwise.cons ?_ h
      intro b hb
      rcases List.mem_cons.mp hb with hb | hb
      · exact hb ▸ hxy
      · exact hTrans x y b hxy (hy b hb)
    · rw [if_neg hxy]
      refine List.Pairwise.cons ?_ (ih hys)
      intro b hb
      rcases List.mem_cons.mp ((jsInsert_perm le x ys).mem_iff.mp hb) with hb | hb
      · rw [hb]
        exact (hTot x y).resolve_left hxy
      · exact hy b hb

theorem pairwise_jsStableSort (le : α → α → Bool)
    (hTot : ∀ a b, le a b = true ∨ le b a = true)
    (hTrans : ∀ a b c, le a b = true → le b c = true → le a c = true)
    (l : List α) :
    (jsStableSort le l).Pairwise (fun a b => le a b = true) := by
  induction l with
  | nil => simp [jsStableSort]
  | cons x xs ih =>
    rw [jsStableSort]
    exact pairwise_jsInsert le hTot hTrans x _ ih

theorem jsStableSort_of_all_le (le : α → α → Bool) (l : List α)
    (h : ∀ a ∈ l, ∀ b ∈ l, le a b = true) :
    jsStableSort le l = l := by
  induction l with
  | nil => rfl
  | cons x xs ih =>
    rw [jsStableSort, ih (fun a ha b hb => h a (List.mem_cons_of_mem x ha) b
      (List.mem_cons_of_mem x hb))]
    cases xs with
    | nil => rfl
    | cons y ys =>
      rw [jsInsert, if_pos (h x (List.mem_cons_self x (y :: ys)) y
        (List.mem_cons_of_mem x (List.mem_cons_self y ys)))]

/-! ## Facts about the predictions-page comparator -/

theorem evLt_irrefl (v : Option ℚ) : evLt v v = false := by
  cases v <;> simp [evLt]

theorem evLt_asymm {u v : Option ℚ} (h : evLt u v = true) : evLt v u = false := by
  cases u <;> cases v <;> simp_all [evLt]
  exact le_of_lt h

theorem evLt_trans {u v w : Option ℚ} (h1 : evLt u v = true)
    (h2 : evLt v w = true) : evLt u w = true := by
  cases u <;> cases v <;> cases w <;> simp_all [evLt]
  exact lt_trans h1 h2

theorem eq_of_not_evLt {u v : Option ℚ} (h1 : evLt u v = false)
    (h2 : evLt v u = false) : u = v := by
  cases u <;> cases v <;> simp_all [evLt]
  exact le_antisymm h2 h1

theorem ltd_trans {d : Dir} {u v w : Option ℚ} (h1 : ltd d u v = true)
    (h2 : ltd d v w = true) : ltd d u w = true := by
  cases d
  · exact evLt_trans h1 h2
  · exact evLt_trans h2 h1

theorem leGame_iff (k : GKey) (d : Dir) (a b : GameView) :
    leGame k d a b = true ↔
      (ltd d (keyVal a k) (keyVal b k) = true ∨
        (keyVal a k = keyVal b k ∧ b.pick_prob ≤ a.pick_prob)) := by
  unfold leGame cmpGame ltd
  cases h1 : evLt (keyVal a k) (keyVal b k) with
  | true =>
    have h1' := evLt_asymm h1
    have hne : ¬ keyVal a k = keyVal b k := by
      intro he
      rw [he, evLt_irrefl] at h1
      exact Bool.false_ne_true h1
    cases d <;> simp [h1, h1', hne]
  | false =>
    cases h2 : evLt (keyVal b k) (keyVal a k) with
    | true =>
      have hne : ¬ keyVal a k = keyVal b k := by
        intro he
        rw [he, evLt_irrefl] at h2
        exact Bool.false_ne_true h2
      cases d <;> simp [h1, h2, hne]
    | false =>
      have heq := eq_of_not_evLt h1 h2
      cases d <;> simp [h1, h2, heq, evLt_irrefl, sub_nonpos]

theorem leGame_total (k : GKey) (d : Dir) (a b : GameView) :
    leGame k d a b = true ∨ leGame k d b a = true := by
  cases h1 : evLt (keyVal a k) (keyVal b k) with
  | true =>
    cases d
    · exact Or.inl ((leGame_iff k .asc a b).mpr (Or.inl h1))
    · exact Or.inr ((leGame_iff k .desc b a).mpr (Or.inl h1))
  | false =>
    cases h2 : evLt (keyVal b k) (keyVal a k) with
    | true =>
      cases d
      · exact Or.inr ((leGame_iff k .asc b a).mpr (Or.inl h2))
      · exact Or.inl ((leGame_iff k .desc a b).mpr (Or.inl h2))
    | false =>
      have heq := eq_of_not_evLt h1 h2
      rcases le_total b.pick_prob a.pick_prob with hp | hp
      · exact Or.inl ((leGame_iff k d a b).mpr (Or.inr ⟨heq, hp⟩))
      · exact Or.inr ((leGame_iff k d b a).mpr (Or.inr ⟨heq.symm, hp⟩))

theorem leGame_trans (k : GKey) (d : Dir) (a b c : GameView)
    (h1 : leGame k d a b = true) (h2 : leGame k d b c = true) :
    leGame k d a c = true := by
  rw [leGame_iff] at h1 h2 ⊢
  rcases h1 with h1 | ⟨e1, p1⟩
  · rcases h2 with h2 | ⟨e2, p2⟩
    · exact Or.inl (ltd_trans h1 h2)
    · rw [← e2]
      exact Or.inl h1
  · rcases h2 with h2 | ⟨e2, p2⟩
    · rw [e1]
      exact Or.inl h2
    · exact Or.inr ⟨e1.trans e2, le_trans p2 p1⟩

theorem sortedGame_pairwise (rows : List GameView) (k : GKey) (d : Dir) :
    (sortedGame rows k d).Pairwise (fun a b => leGame k d a b = true) :=
  pairwise_jsStableSort (leGame k d) (leGame_total k d) (leGame_trans k d) rows

/-- Under ascending sort, if a later record is missing at the sort key then
so is every earlier one: the missing block is an initial segment. -/
theorem sortedGame_none_first (rows : List GameView) (k : GKey) :
    (sortedGame rows k .asc).Pairwise
      (fun a b => keyVal b k = none → keyVal a k = none) := by
  refine (sortedGame_pairwise rows k .asc).imp ?_
  intro a b hab hbnone
  rcases (leGame_iff k .asc a b).mp hab with h | ⟨he, _⟩
  · rw [show ltd .asc (keyVal a k) (keyVal b k) = evLt (keyVal a k) (keyVal b k)
      from rfl, hbnone] at h
    cases hav : keyVal a k with
    | none => rfl
    | some x =>
      rw [hav] at h
      simp [evLt] at h
  · exact he.trans hbnone

/-- Under descending sort, if an earlier record is missing at the sort key
then so is every later one: the missing block is a final segment. -/
theorem sortedGame_none_last (rows : List GameView) (k : GKey) :
    (sortedGame rows k .desc).Pairwise
      (fun a b => keyVal a k = none → keyVal b k = none) := by
  refine (sortedGame_pairwise rows k .desc).imp ?_
  intro a b hab hanone
  rcases (leGame_iff k .desc a b).mp hab with h | ⟨he, _⟩
  · rw [show ltd .desc (keyVal a k) (keyVal b k) = evLt (keyVal b k) (keyVal a k)
      from rfl, hanone] at h
    cases hbv : keyVal b k with
    | none => rfl
    | some x =>
      rw [hbv] at h
      simp [evLt] at h
  · exact he.symm.trans hanone

/-- Records tied at the primary sort key are ordered by `pick_prob`
descending, under either direction. -/
theorem sortedGame_tie (rows : List GameView) (k : GKey) (d : Dir) :
    (sortedGame rows k d).Pairwise
      (fun a b => keyVal a k = keyVal b k → b.pick_prob ≤ a.pick_prob) := by
  refine (sortedGame_pairwise rows k d).imp ?_
  intro a b hab he
  rcases (leGame_iff k d a b).mp hab with h | ⟨_, p⟩
  · rw [he] at h
    cases d <;> simp [ltd, evLt_irrefl] at h
  · exact p

/-! ## Stability of the insertion sort on tied elements -/

theorem jsInsert_filter_neg (le : α → α → Bool) (p : α → Bool) (x : α)
    (hx : p x = false) (l : List α) :
    (jsInsert le x l).filter p = l.filter p := by
  induction l with
  | nil => simp [jsInsert, hx]
  | cons y ys ih =>
    rw [jsInsert]
    by_cases h : le x y = true
    · rw [if_pos h]
      simp [List.filter_cons, hx]
    · rw [if_neg h]
      simp [List.filter_cons, ih]

theorem jsInsert_filter_pos (le : α → α → Bool) (p : α → Bool) (x : α)
    (hx : p x = true) (l : List α)
    (hle : ∀ y ∈ l, p y = true → le x y = true) :
    (jsInsert le x l).filter p = x :: l.filter p := by
  induction l with
  | nil => simp [jsInsert, hx]
  | cons y ys ih =>
    rw [jsInsert]
    by_cases h : le x y = true
    · rw [if_pos h]
      simp [List.filter_cons, hx]
    · rw [if_neg h]
      have hpy : p y = false := by
        cases hpy : p y
        · rfl
        · exact absurd (hle y (List.mem_cons_self y ys) hpy) h
      have ih2 := ih (fun z hz hpz => hle z (List.mem_cons_of_mem y hz) hpz)
      simp [List.filter_cons, hpy, ih2]

/-- Stability on classes: if all elements satisfying `p` are mutually
`le`-related (the comparator is `≤ 0` on every pair of them, as on ties),
the sort keeps the `p`-subsequence in its input order. -/
theorem jsStableSort_filter (le : α → α → Bool) (p : α → Bool)
    (hcl : ∀ a b, p a = true → p b = true → le a b = true) (l : List α) :
    (jsStableSort le l).filter p = l.filter p := by
  induction l with
  | nil => rfl
  | cons x xs ih =>
    rw [jsStableSort]
    cases hx : p x with
    | false =>
      rw [jsInsert_filter_neg le p x hx]
      simp [List.filter_cons, hx, ih]
    | true =>
      rw [jsInsert_filter_pos le p x hx (jsStableSort le xs)
        (fun y _ hpy => hcl x y hx hpy)]
      simp [List.filter_cons, hx, ih]

/-! ## Facts about the history-page comparator -/

theorem hvLt_irrefl (v : String ⊕ ℚ) : hvLt v v = false := by
  cases v <;> simp [hvLt]

/-- Two history rows with equal values at the sort key are tied: the
comparator returns `0`, which is `≤ 0`. -/
theorem leHist_of_tie (k : HKey) (d : Dir) (a b : HistoryRow)
    (h : hKeyVal a k = hKeyVal b k) : leHist k d a b = true := by
  unfold leHist cmpHist
  rw [h]
  simp [hvLt_irrefl]

/-- When every pair of rows is tied at the sort key, the history sort is
the identity: its comparator returns `0` on ties and the sort is stable. -/
theorem sortedHist_of_const_key (rows : List HistoryRow) (k : HKey) (d : Dir)
    (h : ∀ a ∈ rows, ∀ b ∈ rows, hKeyVal a k = hKeyVal b k) :
    sortedHist rows k d = rows := by
  apply jsStableSort_of_all_le
  intro a ha b hb
  unfold leHist cmpHist
  rw [h a ha b hb]
  simp [hvLt_irrefl]

/-! ## Facts about the array-store model of the `sorted` memo -/

theorem runSortCopy_fst (le : α → α → Bool) (σ : List (List α)) (r : ℕ) :
    (runSortCopy le σ r).1 =
      (σ ++ [σ.getD r []]).set σ.length
        (jsStableSort le ((σ ++ [σ.getD r []]).getD σ.length [])) := rfl

theorem runSortCopy_snd (le : α → α → Bool) (σ : List (List α)) (r : ℕ) :
    (runSortCopy le σ r).2 = σ.length := rfl

/-- Frame property: running the copy-then-sort body leaves every array
that existed before it untouched. -/
theorem runSortCopy_frame (le : α → α → Bool) (σ : List (List α)) (r i : ℕ)
    (hi : i < σ.length) : (runSortCopy le σ r).1[i]? = σ[i]? := by
  rw [runSortCopy_fst,
    List.getElem?_set_ne (show σ.length ≠ i by omega),
    List.getElem?_append_left hi]

/-- The array the memo returns holds a permutation of the rows list it
copied. -/
theorem runSortCopy_result (le : α → α → Bool) (σ : List (List α)) (r : ℕ) :
    List.Perm ((runSortCopy le σ r).1.getD (runSortCopy le σ r).2 [])
      (σ.getD r []) := by
  have hc : (σ ++ [σ.getD r []]).getD σ.length [] = σ.getD r [] := by
    simp [List.getD, List.getElem?_concat_length]
  rw [runSortCopy_fst, runSortCopy_snd, hc]
  have hset : ((σ ++ [σ.getD r []]).set σ.length
      (jsStableSort le (σ.getD r []))).getD σ.length [] =
      jsStableSort le (σ.getD r []) := by
    simp [List.getD]
  rw [hset]
  exact jsStableSort_perm le _

/-! ## Facts about `toFixed` on zero -/

theorem floor_half_zero (e : ℕ) : ⌊|(0 : ℚ)| * 10 ^ (e + 1) + 1 / 2⌋ = 0 := by
  norm_num

/-- For a positive precision, formatting the number zero yields the string
`0.` followed by zeros, whose length is `e + 3`; in particular it is not
the one-character placeholder. -/
theorem toFixed_zero_length (e : ℕ) : (toFixed 0 (e + 1)).length = e + 3 := by
  unfold toFixed
  rw [floor_half_zero]
  simp [padZeros, String.length_append, Nat.succ_ne_zero, lt_irrefl,
    show toString (0 : ℕ) = "0" from rfl,
    show ("0" : String).length = 1 from rfl,
    show ("0." : String).length = 2 from rfl]
  omega

theorem flipDir_flipDir (d : Dir) : flipDir (flipDir d) = d := by
  cases d <;> rfl

/-! ## Claims -/

/--
C1: for every row list, sort key and direction, the sort transform
compares a record with a missing (absent or null) value at the sort key as
negative infinity, so such records appear first under ascending sort
(if a later record is missing, so is every earlier one: the missing
records form an initial segment) and last under descending sort (the
missing records form a final segment).  On the history page no field of
`HistoryRow` is nullable or optional, so a missing sort-key value cannot
arise there and the claim is vacuous for its transform.
-/
theorem claim_C1_missing_is_neg_infinity (rows : List GameView) (k : GKey) :
    ((sortedGame rows k .asc).Pairwise
      (fun a b => keyVal b k = none → keyVal a k = none)) ∧
    ((sortedGame rows k .desc).Pairwise
      (fun a b => keyVal a k = none → keyVal b k = none)) :=
  ⟨sortedGame_none_first rows k, sortedGame_none_last rows k⟩

/--
C2, counterexample: the history page's sort transform does NOT order
records that are tied at the primary key by pick probability descending.
`hLow` and `hHigh` share `week = 8` and `hHigh` has the strictly larger
pick probability, yet sorting `[hLow, hHigh]` by `week` descending leaves
`hLow` first (the comparator returns `0` on ties and the sort is stable),
not `[hHigh, hLow]` as the claim requires.
-/
theorem claim_C2_counterexample :
    hKeyVal hLow .week = hKeyVal hHigh .week ∧
    hLow.pick_prob < hHigh.pick_prob ∧
    sortedHist [hLow, hHigh] .week .desc = [hLow, hHigh] ∧
    sortedHist [hLow, hHigh] .week .desc ≠ [hHigh, hLow] := by
  refine ⟨rfl, by norm_num [hLow, hHigh], ?_, ?_⟩ <;>
    norm_num [sortedHist, jsStableSort, jsInsert, leHist, cmpHist, hKeyVal,
      hvLt, hLow, hHigh, HistoryRow.mk.injEq]

/--
C2, amended: on the predictions pages, records that compare equal at the
primary sort key are ordered by the pick probability field descending
(`pick_prob` is a required field of the row type, so the code's
"absent treated as zero" default can never fire); on the history page
records tied at the primary key keep their relative input order — for
every row list, key, direction and key value `v`, the subsequence of
records whose key value is `v` is the same, in the same order, in the
sorted output as in the input: its comparator returns zero on ties and
the sort is stable, with no pick-probability tie-break.
-/
theorem claim_C2_amended (rows : List GameView) (k : GKey) (d : Dir)
    (hrows : List HistoryRow) (hk : HKey) (hd : Dir) (v : String ⊕ ℚ) :
    ((sortedGame rows k d).Pairwise
      (fun a b => keyVal a k = keyVal b k → b.pick_prob ≤ a.pick_prob)) ∧
    (sortedHist hrows hk hd).filter (fun r => decide (hKeyVal r hk = v)) =
      hrows.filter (fun r => decide (hKeyVal r hk = v)) := by
  refine ⟨sortedGame_tie rows k d, ?_⟩
  apply jsStableSort_filter
  intro a b ha hb
  exact leHist_of_tie hk hd a b
    ((of_decide_eq_true ha).trans (of_decide_eq_true hb).symm)

/--
C3: for every row list and every choice of sort key and direction, on
either page, the sort transform's output is a permutation of its input:
the same multiset of records, none duplicated or lost.
-/
theorem claim_C3_permutation (rows : List GameView) (k : GKey) (d : Dir)
    (hrows : List HistoryRow) (hk : HKey) (hd : Dir) :
    List.Perm (sortedGame rows k d) rows ∧
    List.Perm (sortedHist hrows hk hd) hrows :=
  ⟨jsStableSort_perm (leGame k d) rows, jsStableSort_perm (leHist hk hd) hrows⟩

/--
C4: on either page the `sorted` memo operates on a shallow copy
(`const copy = [...rows]`) and never mutates the stored row list: in the
array-store model, every array present before the memo ran — in
particular the fetched `rows` array — holds exactly the same record
sequence afterwards, and the array the memo returns is a fresh one
holding a permutation of the rows.  Re-sorting by a different key can
therefore reuse the stored list without re-fetching.
-/
theorem claim_C4_no_mutation (σ : List (List GameView)) (r i : ℕ)
    (k : GKey) (d : Dir) (τ : List (List HistoryRow)) (rh j : ℕ)
    (hk : HKey) (hd : Dir) (hi : i < σ.length) (hj : j < τ.length) :
    ((runSortCopyGame σ r k d).1[i]? = σ[i]? ∧
      List.Perm ((runSortCopyGame σ r k d).1.getD (runSortCopyGame σ r k d).2 [])
        (σ.getD r [])) ∧
    ((runSortCopyHist τ rh hk hd).1[j]? = τ[j]? ∧
      List.Perm ((runSortCopyHist τ rh hk hd).1.getD (runSortCopyHist τ rh hk hd).2 [])
        (τ.getD rh [])) :=
  ⟨⟨runSortCopy_frame (leGame k d) σ r i hi, runSortCopy_result (leGame k d) σ r⟩,
   ⟨runSortCopy_frame (leHist hk hd) τ rh j hj, runSortCopy_result (leHist hk hd) τ rh⟩⟩

/-- Witness for C4 at a concrete one-array store on each page. -/
theorem claim_C4_witness :
    (0 < ([[g355, g380]] : List (List GameView)).length ∧
      0 < ([[hLow, hHigh]] : List (List HistoryRow)).length) ∧
    ((runSortCopyGame [[g355, g380]] 0 .pred_margin .desc).1[0]? =
        ([[g355, g380]] : List (List GameView))[0]? ∧
      List.Perm ((runSortCopyGame [[g355, g380]] 0 .pred_margin .desc).1.getD
          (runSortCopyGame [[g355, g380]] 0 .pred_margin .desc).2 [])
        (([[g355, g380]] : List (List GameView)).getD 0 [])) ∧
    ((runSortCopyHist [[hLow, hHigh]] 0 .week .desc).1[0]? =
        ([[hLow, hHigh]] : List (List HistoryRow))[0]? ∧
      List.Perm ((runSortCopyHist [[hLow, hHigh]] 0 .week .desc).1.getD
          (runSortCopyHist [[hLow, hHigh]] 0 .week .desc).2 [])
        (([[hLow, hHigh]] : List (List HistoryRow)).getD 0 [])) := by
  have h := claim_C4_no_mutation [[g355, g380]] 0 0 .pred_margin .desc
    [[hLow, hHigh]] 0 0 .week .desc (by norm_num) (by norm_num)
  exact ⟨⟨by norm_num, by norm_num⟩, h.1, h.2⟩

/--
C5: sorting the concrete three-row list
`[{pred_margin: 3, pick_prob: 0.55}, {pred_margin: 3, pick_prob: 0.80},
{pred_margin: 7, pick_prob: 0.60}]` by `pred_margin` descending on the
predictions page yields the margin-7 row, then the margin-3 row with pick
probability 0.80, then the margin-3 row with pick probability 0.55.
-/
theorem claim_C5_scenario :
    sortedGame [g355, g380, g760] .pred_margin .desc = [g760, g380, g355] := by
  norm_num [sortedGame, jsStableSort, jsInsert, leGame, cmpGame, keyVal, evLt,
    g355, g380, g760, baseGame, eq_false (by decide : ¬ (Dir.desc = Dir.asc))]

/--
C6: under ascending sort by `net_epa_per_play` on the predictions page,
every record whose `net_epa_per_play` is null or absent is placed before
every record with a defined value at that key: if position `i` of the
output holds a missing-valued record and position `j` holds a
defined-valued one, then `i < j`.
-/
theorem claim_C6_null_sorts_first (rows : List GameView) (i j : ℕ)
    (a b : GameView)
    (ha : (sortedGame rows .net_epa_per_play .asc)[i]? = some a)
    (hb : (sortedGame rows .net_epa_per_play .asc)[j]? = some b)
    (hnull : a.net_epa_per_play = none)
    (hdef : b.net_epa_per_play ≠ none) : i < j := by
  rcases List.getElem?_eq_some.mp ha with ⟨hi, hia⟩
  rcases List.getElem?_eq_some.mp hb with ⟨hj, hjb⟩
  rcases Nat.lt_trichotomy i j with h | h | h
  · exact h
  · subst h
    rw [hia] at hjb
    subst hjb
    exact absurd hnull hdef
  · exfalso
    have hp := List.pairwise_iff_getElem.mp
      (sortedGame_none_first rows .net_epa_per_play) j i hj hi h
    rw [hia, hjb] at hp
    exact hdef (hp hnull)

/-- Witness for C6: in `[gDefNet, gNullNet]` sorted ascending by
`net_epa_per_play`, the null row lands at position 0 and the defined row
at position 1. -/
theorem claim_C6_witness :
    (sortedGame [gDefNet, gNullNet] .net_epa_per_play .asc)[0]? = some gNullNet ∧
    (sortedGame [gDefNet, gNullNet] .net_epa_per_play .asc)[1]? = some gDefNet ∧
    gNullNet.net_epa_per_play = none ∧
    gDefNet.net_epa_per_play ≠ none ∧
    (0 : ℕ) < 1 := by
  have h0 : (sortedGame [gDefNet, gNullNet] .net_epa_per_play .asc)[0]? =
      some gNullNet := by
    norm_num [sortedGame, jsStableSort, jsInsert, leGame, cmpGame, keyVal, evLt,
      gDefNet, gNullNet, baseGame]
  have h1 : (sortedGame [gDefNet, gNullNet] .net_epa_per_play .asc)[1]? =
      some gDefNet := by
    norm_num [sortedGame, jsStableSort, jsInsert, leGame, cmpGame, keyVal, evLt,
      gDefNet, gNullNet, baseGame]
  refine ⟨h0, h1, rfl, by simp [gDefNet, baseGame], ?_⟩
  exact claim_C6_null_sorts_first [gDefNet, gNullNet] 0 1 gNullNet gDefNet h0 h1
    rfl (by simp [gDefNet, baseGame])

/--
C7: a fetch of predictions that resolves with a non-2xx HTTP status `N`
stores exactly the error string `"HTTP N"`, leaves the row list unchanged
from its pre-fetch value and clears the busy flag; the thrown error is
caught by the function's own catch block, so nothing escapes
(`fetchDataStep` is a total function).  A network-level failure stores the
transport error message, or the fallback `"Failed to load"` when the error
carries no message.
-/
theorem claim_C7_fetch_error (s : GamePageState) (st : ℕ) (body : List GameView)
    (hbad : resOk st = false) :
    ((fetchDataStep s (.httpResponse st body)).err =
        some ("HTTP " ++ toString st) ∧
      (fetchDataStep s (.httpResponse st body)).rows = s.rows ∧
      (fetchDataStep s (.httpResponse st body)).loading = false) ∧
    ∀ m : Option String,
      (fetchDataStep s (.networkError m)).err = some (m.getD ("Failed to load")) ∧
      (fetchDataStep s (.networkError m)).rows = s.rows ∧
      (fetchDataStep s (.networkError m)).loading = false := by
  refine ⟨⟨?_, ?_, ?_⟩, fun m => ⟨?_, ?_, ?_⟩⟩ <;> simp [fetchDataStep, hbad]

/-- Witness for C7: an HTTP 500 response yields exactly the error string
`"HTTP 500"`, untouched rows and a cleared busy flag; a message-less
network failure yields `"Failed to load"`. -/
theorem claim_C7_witness :
    resOk 500 = false ∧
    (fetchDataStep s0 (.httpResponse 500 [])).err = some ("HTTP 500") ∧
    (fetchDataStep s0 (.httpResponse 500 [])).rows = s0.rows ∧
    (fetchDataStep s0 (.networkError none)).err = some ("Failed to load") := by
  have h := claim_C7_fetch_error s0 500 [] (by decide)
  exact ⟨by decide, h.1.1.trans (by decide), h.1.2.1, (h.2 none).1⟩

/--
C8: on either page, invoking the sort toggle on the currently active key
flips the direction while keeping the key, and invoking it on any other
key selects that key with direction descending; toggling the active key
twice restores the whole sort state exactly, so the sorted view is
restored as well.
-/
theorem claim_C8_toggle (s : GamePageState) (k : GKey)
    (t : HistPageState) (hk : HKey) :
    (s.sortKey = k →
      (toggleSortG s k).sortKey = s.sortKey ∧
      (toggleSortG s k).sortDir = flipDir s.sortDir ∧
      toggleSortG (toggleSortG s k) k = s ∧
      sortedGame (toggleSortG (toggleSortG s k) k).rows
          (toggleSortG (toggleSortG s k) k).sortKey
          (toggleSortG (toggleSortG s k) k).sortDir =
        sortedGame s.rows s.sortKey s.sortDir) ∧
    (s.sortKey ≠ k →
      (toggleSortG s k).sortKey = k ∧ (toggleSortG s k).sortDir = .desc) ∧
    (t.sortKey = hk →
      (toggleSortH t hk).sortKey = t.sortKey ∧
      (toggleSortH t hk).sortDir = flipDir t.sortDir ∧
      toggleSortH (toggleSortH t hk) hk = t) ∧
    (t.sortKey ≠ hk →
      (toggleSortH t hk).sortKey = hk ∧ (toggleSortH t hk).sortDir = .desc) := by
  refine ⟨fun h => ?_, fun h => ?_, fun h => ?_, fun h => ?_⟩
  · subst h
    have hdouble : toggleSortG (toggleSortG s s.sortKey) s.sortKey = s := by
      simp [toggleSortG, flipDir_flipDir]
    exact ⟨by simp [toggleSortG], by simp [toggleSortG],
      hdouble, by rw [hdouble]⟩
  · exact ⟨by simp [toggleSortG, h], by simp [toggleSortG, h]⟩
  · subst h
    exact ⟨by simp [toggleSortH], by simp [toggleSortH],
      by simp [toggleSortH, flipDir_flipDir]⟩
  · exact ⟨by simp [toggleSortH, h], by simp [toggleSortH, h]⟩

/-- Witness for C8 at the concrete initial page states: toggling the
active key twice round-trips, toggling an inactive key selects it
descending. -/
theorem claim_C8_witness :
    (s0.sortKey = GKey.pick_prob ∧
      toggleSortG (toggleSortG s0 .pick_prob) .pick_prob = s0) ∧
    (s0.sortKey ≠ GKey.K_pair ∧ (toggleSortG s0 .K_pair).sortKey = .K_pair ∧
      (toggleSortG s0 .K_pair).sortDir = .desc) ∧
    (h0.sortKey = HKey.created_at ∧
      toggleSortH (toggleSortH h0 .created_at) .created_at = h0) := by
  have h1 := (claim_C8_toggle s0 .pick_prob h0 .created_at).1 rfl
  have h2 := (claim_C8_toggle s0 .K_pair h0 .created_at).2.1 (by decide)
  have h3 := (claim_C8_toggle s0 .pick_prob h0 .created_at).2.2.1 rfl
  exact ⟨⟨rfl, h1.2.2.1⟩, ⟨by decide, h2.1, h2.2⟩, ⟨rfl, h3.2.2⟩⟩

/--
C9: the number formatter renders a missing value (null or undefined) as
the placeholder `"—"` for every precision — never as the rendering of
zero, from which it always differs — and renders every present number `x`
as `x` fixed to the given number of decimal places (`toFixed`).
-/
theorem claim_C9_placeholder (d : ℕ) :
    fmtNum none d = "—" ∧
    fmtNum none d ≠ fmtNum (some 0) d ∧
    ∀ x : ℚ, fmtNum (some x) d = toFixed x d := by
  refine ⟨rfl, ?_, fun x => rfl⟩
  cases d with
  | zero =>
    have hz : fmtNum (some 0) 0 = "0" := by
      unfold fmtNum toFixed
      norm_num
      rfl
    rw [hz]
    decide
  | succ e =>
    intro h
    have hl := congrArg String.length h
    rw [show fmtNum none (e + 1) = ("—" : String) from rfl,
      show fmtNum (some 0) (e + 1) = toFixed 0 (e + 1) from rfl,
      toFixed_zero_length, show ("—" : String).length = 1 from rfl] at hl
    omega

/--
C10: the predictions-page tie-break is applied identically under both
directions — within any group of records equal at the primary key, the
internal order is pick probability descending under ascending AND
descending sort — and consequently sorting descending is in general not
the reversal of sorting ascending: the two-row list `[g355, g380]` with
equal `pred_margin` sorts to the same output under both directions, which
differs from the reversal of its ascending sort.
-/
theorem claim_C10_tie_not_reversed (rows : List GameView) (k : GKey) :
    ((sortedGame rows k .asc).Pairwise
      (fun a b => keyVal a k = keyVal b k → b.pick_prob ≤ a.pick_prob)) ∧
    ((sortedGame rows k .desc).Pairwise
      (fun a b => keyVal a k = keyVal b k → b.pick_prob ≤ a.pick_prob)) ∧
    sortedGame [g355, g380] .pred_margin .desc =
      sortedGame [g355, g380] .pred_margin .asc ∧
    sortedGame [g355, g380] .pred_margin .desc ≠
      (sortedGame [g355, g380] .pred_margin .asc).reverse := by
  refine ⟨sortedGame_tie rows k .asc, sortedGame_tie rows k .desc, ?_, ?_⟩ <;>
    norm_num [sortedGame, jsStableSort, jsInsert, leGame, cmpGame, keyVal, evLt,
      g355, g380, baseGame, GameView.mk.injEq,
      eq_false (by decide : ¬ (Dir.desc = Dir.asc))]

end Mvp
